import Mathlib

/-!
# Verification of the iso639-3 lookup library and its table generator

Shallow embedding of `iso6393.go` (runtime lookup API) and
`cmd/generator.go` (the table generator) from barbashov/iso639-3.

Go maps are modelled as association lists in insertion order, where a later
insertion under the same key overwrites an earlier one; `mapLookup` therefore
returns the *last* binding for a key.  Strings are Lean `String`s; Go's
`len` on a string is byte length, modelled by `String.utf8ByteSize`.
-/

namespace Iso6393

/-- `LanguageScope` from `iso6393.go` (a Go `rune`). -/
abbrev LanguageScope := Char

/-- `LanguageType` from `iso6393.go` (a Go `rune`). -/
abbrev LanguageType := Char

/-- The `Language` struct from `iso6393.go`. -/
structure Language where
  Part3 : String
  Part2B : String
  Part2T : String
  Part1 : String
  Scope : LanguageScope
  LanguageType : LanguageType
  Name : String
  Comment : String
  deriving DecidableEq

/-- Go map read `m[k]`: the last binding inserted for `k`, if any. -/
def mapLookup : List (String × Language) → String → Option Language
  | [], _ => none
  | p :: rest, k =>
    match mapLookup rest k with
    | some v => some v
    | none => if p.1 = k then some p.2 else none

/-- The key set of a modelled Go map. -/
def mapKeys (t : List (String × Language)) : List String :=
  t.map Prod.fst

/-- `FromPart3Code` from `iso6393.go`, parameterized by the
`LanguagesPart3` table. -/
def FromPart3Code (languagesPart3 : List (String × Language)) (code : String) :
    Option Language :=
  mapLookup languagesPart3 code

/-- `FromPart2Code` from `iso6393.go`, parameterized by the
`LanguagesPart2` table. -/
def FromPart2Code (languagesPart2 : List (String × Language)) (code : String) :
    Option Language :=
  mapLookup languagesPart2 code

/-- `FromPart1Code` from `iso6393.go`, parameterized by the
`LanguagesPart1` table. -/
def FromPart1Code (languagesPart1 : List (String × Language)) (code : String) :
    Option Language :=
  mapLookup languagesPart1 code

/-- `FromAnyCode` from `iso6393.go`.  `len(code)` in Go is the byte length
of the string. -/
def FromAnyCode (p3 p2 p1 : List (String × Language)) (code : String) :
    Option Language :=
  let codeLen := code.utf8ByteSize
  if codeLen = 3 then
    match FromPart3Code p3 code with
    | some l => some l
    | none => FromPart2Code p2 code
  else if codeLen = 2 then
    FromPart1Code p1 code
  else
    none

/-- `FromName` from `iso6393.go`: linear scan of the `LanguagesPart3`
table in iteration order, exact match on `Name`. -/
def FromName (languagesPart3 : List (String × Language)) (nm : String) :
    Option Language :=
  (languagesPart3.find? (fun p => p.2.Name == nm)).map Prod.snd

theorem mapLookup_eq_none (t : List (String × Language)) (k : String)
    (h : k ∉ mapKeys t) : mapLookup t k = none := by
  induction t with
  | nil => rfl
  | cons p rest ih =>
    have hk : k ∉ mapKeys rest := fun hm => h (List.mem_cons_of_mem _ hm)
    have hp : p.1 ≠ k := by
      intro he
      exact h (by simp [mapKeys, he])
    simp [mapLookup, ih hk, hp]

theorem mapLookup_nodup_mem (t : List (String × Language)) (k : String)
    (v : Language) (hnd : (mapKeys t).Nodup) (hmem : (k, v) ∈ t) :
    mapLookup t k = some v := by
  induction t with
  | nil => cases hmem
  | cons p rest ih =>
    have hnd' : (mapKeys rest).Nodup := (List.nodup_cons.mp hnd).2
    rcases List.mem_cons.mp hmem with heq | hmem'
    · subst heq
      have hk : k ∉ mapKeys rest := by
        have := (List.nodup_cons.mp hnd).1
        simpa [mapKeys] using this
      simp [mapLookup, mapLookup_eq_none rest k hk]
    · simp [mapLookup, ih hnd' hmem']

/-- C1: `FromAnyCode` dispatch: a 3-byte code returns the Part3 entry when
present, otherwise the Part2 entry; a 2-byte code consults only the Part1
table; any other length returns `none` without consulting any table. -/
theorem fromAnyCode_dispatch (p3 p2 p1 : List (String × Language))
    (code : String) :
    (code.utf8ByteSize = 3 → ∀ l, FromPart3Code p3 code = some l →
      FromAnyCode p3 p2 p1 code = some l) ∧
    (code.utf8ByteSize = 3 → FromPart3Code p3 code = none →
      FromAnyCode p3 p2 p1 code = FromPart2Code p2 code) ∧
    (code.utf8ByteSize = 2 →
      FromAnyCode p3 p2 p1 code = FromPart1Code p1 code) ∧
    (code.utf8ByteSize ≠ 3 → code.utf8ByteSize ≠ 2 →
      FromAnyCode p3 p2 p1 code = none) := by
  refine ⟨?_, ?_, ?_, ?_⟩
  · intro h3 l hl
    simp [FromAnyCode, h3, hl]
  · intro h3 hnone
    simp [FromAnyCode, h3, hnone]
  · intro h2
    have h3 : code.utf8ByteSize ≠ 3 := by omega
    simp [FromAnyCode, h2, h3]
  · intro h3 h2
    simp [FromAnyCode, h2, h3]

/-- Sample language record used to instantiate witnesses. -/
def sampleLang : Language :=
  { Part3 := "abc", Part2B := "abb", Part2T := "abt", Part1 := "ab",
    Scope := 'I', LanguageType := 'L', Name := "Alpha", Comment := "" }

/-- C1 witness: the dispatch theorem applied to a concrete one-entry
Part3 table and the 3-byte code `abc`. -/
theorem fromAnyCode_dispatch_witness :
    FromAnyCode [("abc", sampleLang)] [] [] "abc" = some sampleLang :=
  (fromAnyCode_dispatch [("abc", sampleLang)] [] [] "abc").1 (by decide)
    sampleLang (by decide)

/-- C8: every lookup entry point returns `none` on a missing key: the four
code lookups when the key is not in the queried tables, and `FromName` when
no record's name matches.  None of them can return a populated record. -/
theorem lookup_miss_contract (p3 p2 p1 : List (String × Language))
    (k : String) :
    (k ∉ mapKeys p3 → FromPart3Code p3 k = none) ∧
    (k ∉ mapKeys p2 → FromPart2Code p2 k = none) ∧
    (k ∉ mapKeys p1 → FromPart1Code p1 k = none) ∧
    (k ∉ mapKeys p3 → k ∉ mapKeys p2 → k ∉ mapKeys p1 →
      FromAnyCode p3 p2 p1 k = none) ∧
    ((∀ p ∈ p3, p.2.Name ≠ k) → FromName p3 k = none) := by
  refine ⟨fun h => mapLookup_eq_none p3 k h,
          fun h => mapLookup_eq_none p2 k h,
          fun h => mapLookup_eq_none p1 k h, ?_, ?_⟩
  · intro h3 h2 h1
    have e3 : FromPart3Code p3 k = none := mapLookup_eq_none p3 k h3
    have e2 : FromPart2Code p2 k = none := mapLookup_eq_none p2 k h2
    have e1 : FromPart1Code p1 k = none := mapLookup_eq_none p1 k h1
    unfold FromAnyCode
    simp only [e3, e2, e1]
    split <;> simp
  · intro hall
    have : p3.find? (fun p => p.2.Name == k) = none := by
      rw [List.find?_eq_none]
      intro p hp
      simpa using hall p hp
    simp [FromName, this]

/-- C8 witness: the miss contract applied to concrete one-entry tables and
the absent key `zzz`. -/
theorem lookup_miss_contract_witness :
    FromAnyCode [("abc", sampleLang)] [("abb", sampleLang)]
      [("ab", sampleLang)] "zzz" = none :=
  ((lookup_miss_contract [("abc", sampleLang)] [("abb", sampleLang)]
      [("ab", sampleLang)] "zzz").2.2.2.1) (by decide) (by decide) (by decide)

/-- C9: `FromName` returns a record only on an exact (case-sensitive) name
match; it returns `none` when no record's name matches; and when the table
splits as `t1 ++ (k, l) :: t2` with no match in `t1` and `l.Name = nm`, it
returns `l`, the first match in iteration order. -/
theorem fromName_spec (p3 : List (String × Language)) (nm : String) :
    (∀ l, FromName p3 nm = some l → l.Name = nm) ∧
    ((∀ p ∈ p3, p.2.Name ≠ nm) → FromName p3 nm = none) ∧
    (∀ t1 k l t2, p3 = t1 ++ (k, l) :: t2 → l.Name = nm →
      (∀ p ∈ t1, p.2.Name ≠ nm) → FromName p3 nm = some l) := by
  refine ⟨?_, ?_, ?_⟩
  · intro l hl
    unfold FromName at hl
    rcases hfind : p3.find? (fun p => p.2.Name == nm) with _ | p
    · rw [hfind] at hl; cases hl
    · rw [hfind] at hl
      have hp := List.find?_some hfind
      have : p.2.Name = nm := by simpa using hp
      have : p.2 = l := by simpa using hl
      subst this
      simpa using hp
  · intro hall
    have : p3.find? (fun p => p.2.Name == nm) = none := by
      rw [List.find?_eq_none]
      intro p hp
      simpa using hall p hp
    simp [FromName, this]
  · intro t1 k l t2 hsplit hname hmiss
    subst hsplit
    have h1 : t1.find? (fun p => p.2.Name == nm) = none := by
      rw [List.find?_eq_none]
      intro p hp
      simpa using hmiss p hp
    have h2 : ((k, l) :: t2).find? (fun p => p.2.Name == nm) = some (k, l) := by
      simp [List.find?_cons, hname]
    simp [FromName, List.find?_append, h1, h2]

/-- C9 witness: the name lookup theorem applied to a two-entry table whose
second entry is the first (and only) name match. -/
theorem fromName_spec_witness :
    FromName [("zzz", { sampleLang with Name := "Other" }),
      ("abc", sampleLang)] "Alpha" = some sampleLang :=
  (fromName_spec [("zzz", { sampleLang with Name := "Other" }),
      ("abc", sampleLang)] "Alpha").2.2
    [("zzz", { sampleLang with Name := "Other" })] "abc" sampleLang []
    rfl rfl (by decide)

/-! ## Table Builder (`outputLookup` in `cmd/generator.go`)

The generator walks the parsed records and emits key/record pairs into
three Go map literals.  We model each emitted table as the list of
key/record pairs in emission order; `mapLookup` above applies the Go
overwrite semantics to that list. -/

/-- A record is a row of raw string fields; `r.getD i ""` is `record[i]`. -/
abbrev RawRecord := List String

/-- The struct literal built by the generator for one record: the 8
positional fields of the row, with an omitted (empty) field becoming the
Go zero value.  For the two rune fields the generated code holds the first
character of the 1-character field value. -/
def recordToLanguage (r : RawRecord) : Language :=
  { Part3 := r.getD 0 "", Part2B := r.getD 1 "", Part2T := r.getD 2 "",
    Part1 := r.getD 3 "",
    Scope := (r.getD 4 "").data.getD 0 (Char.ofNat 0),
    LanguageType := (r.getD 5 "").data.getD 0 (Char.ofNat 0),
    Name := r.getD 6 "", Comment := r.getD 7 "" }

/-- The Part 3 lookup table: every record keyed by `record[0]`. -/
def part3Table (records : List RawRecord) : List (String × Language) :=
  records.map (fun r => (r.getD 0 "", recordToLanguage r))

/-- The Part 2 entries one record contributes: a record with empty
`record[1]` is skipped; otherwise it is inserted under `record[1]`, and
additionally under `record[2]` whenever `record[2]` differs from
`record[1]` (the generator does not check that `record[2]` is non-empty). -/
def part2Entries (r : RawRecord) : List (String × Language) :=
  if r.getD 1 "" = "" then []
  else if r.getD 1 "" ≠ r.getD 2 "" then
    [(r.getD 1 "", recordToLanguage r), (r.getD 2 "", recordToLanguage r)]
  else [(r.getD 1 "", recordToLanguage r)]

/-- The Part 2 lookup table in emission order. -/
def part2Table (records : List RawRecord) : List (String × Language) :=
  records.flatMap part2Entries

/-- The Part 1 entries one record contributes: skipped when `record[3]`
is empty. -/
def part1Entries (r : RawRecord) : List (String × Language) :=
  if r.getD 3 "" = "" then [] else [(r.getD 3 "", recordToLanguage r)]

/-- The Part 1 lookup table in emission order. -/
def part1Table (records : List RawRecord) : List (String × Language) :=
  records.flatMap part1Entries

theorem mem_part2Entries (r : RawRecord) (p : String × Language)
    (hp : p ∈ part2Entries r) :
    r.getD 1 "" ≠ "" ∧ (p.1 = r.getD 1 "" ∨ p.1 = r.getD 2 "") := by
  unfold part2Entries at hp
  by_cases hb : r.getD 1 "" = ""
  · rw [if_pos hb] at hp; cases hp
  · rw [if_neg hb] at hp
    by_cases hbt : r.getD 1 "" ≠ r.getD 2 ""
    · rw [if_pos hbt] at hp
      rcases List.mem_cons.mp hp with rfl | hp
      · exact ⟨hb, Or.inl rfl⟩
      · rcases List.mem_singleton.mp hp with rfl
        exact ⟨hb, Or.inr rfl⟩
    · rw [if_neg hbt] at hp
      rcases List.mem_singleton.mp hp with rfl
      exact ⟨hb, Or.inl rfl⟩

/-- A record set with a non-empty secondary-B code but an empty
secondary-T code. -/
def badRecords : List RawRecord :=
  [["aaa", "abb", "", "", "I", "L", "Alpha", ""]]

/-- C3 counterexample: the generator inserts under `record[2]` whenever it
differs from `record[1]`, without checking non-emptiness, so a record with
`record[1] = "abb"` and `record[2] = ""` puts the empty string into the
Part 2 table's key set. -/
theorem part2Table_empty_key_counterexample :
    "" ∈ mapKeys (part2Table badRecords) := by decide

/-- C3 (amended): empty `record[1]` or `record[3]` contribute no Part 2 /
Part 1 entry, and a record is inserted under `record[2]` whenever
`record[2]` differs from `record[1]` (no emptiness check on `record[2]`);
consequently no table holds an empty key provided every record has a
non-empty primary code and a non-empty `record[2]` whenever `record[1]`
is non-empty. -/
theorem builder_no_empty_keys (records : List RawRecord)
    (hprim : ∀ r ∈ records, r.getD 0 "" ≠ "")
    (hsec : ∀ r ∈ records, r.getD 1 "" ≠ "" → r.getD 2 "" ≠ "") :
    "" ∉ mapKeys (part3Table records) ∧
    "" ∉ mapKeys (part2Table records) ∧
    "" ∉ mapKeys (part1Table records) ∧
    (∀ r ∈ records, r.getD 1 "" ≠ "" → r.getD 2 "" ≠ r.getD 1 "" →
      (r.getD 2 "", recordToLanguage r) ∈ part2Table records) := by
  refine ⟨?_, ?_, ?_, ?_⟩
  · intro hmem
    rcases List.mem_map.mp hmem with ⟨p, hp, hkey⟩
    rcases List.mem_map.mp hp with ⟨r, hr, rfl⟩
    exact hprim r hr hkey
  · intro hmem
    rcases List.mem_map.mp hmem with ⟨p, hp, hkey⟩
    rcases List.mem_flatMap.mp hp with ⟨r, hr, hpr⟩
    rcases mem_part2Entries r p hpr with ⟨hb, hk | hk⟩
    · exact hb (hk ▸ hkey)
    · exact hsec r hr hb (hk ▸ hkey)
  · intro hmem
    rcases List.mem_map.mp hmem with ⟨p, hp, hkey⟩
    rcases List.mem_flatMap.mp hp with ⟨r, hr, hpr⟩
    unfold part1Entries at hpr
    by_cases h1 : r.getD 3 "" = ""
    · rw [if_pos h1] at hpr; cases hpr
    · rw [if_neg h1] at hpr
      rcases List.mem_singleton.mp hpr with rfl
      exact h1 hkey
  · intro r hr hb hdiff
    refine List.mem_flatMap.mpr ⟨r, hr, ?_⟩
    have hbt : r.getD 1 "" ≠ r.getD 2 "" := fun he => hdiff he.symm
    unfold part2Entries
    rw [if_neg hb, if_pos hbt]
    exact List.mem_cons_of_mem _ (List.mem_singleton.mpr rfl)

/-- C3 amended witness: the no-empty-key theorem applied to a concrete
well-formed two-record set with a distinct secondary-T code. -/
theorem builder_no_empty_keys_witness :
    ("rus", recordToLanguage ["deu", "ger", "rus", "de", "I", "L", "German", ""])
      ∈ part2Table [["deu", "ger", "rus", "de", "I", "L", "German", ""]] :=
  (builder_no_empty_keys [["deu", "ger", "rus", "de", "I", "L", "German", ""]]
      (by decide) (by decide)).2.2.2
    ["deu", "ger", "rus", "de", "I", "L", "German", ""]
    (by decide) (by decide) (by decide)

/-- C6: with primary codes unique across records, the Part 3 table has one
pair per record, its key set has as many distinct keys as input rows, and
looking any record's primary code up yields exactly that record. -/
theorem part3Table_complete (records : List RawRecord)
    (hnodup : (records.map (fun r => r.getD 0 "")).Nodup) :
    (part3Table records).length = records.length ∧
    (mapKeys (part3Table records)).dedup.length = records.length ∧
    ∀ r ∈ records,
      mapLookup (part3Table records) (r.getD 0 "") =
        some (recordToLanguage r) := by
  have hkeys : mapKeys (part3Table records) =
      records.map (fun r => r.getD 0 "") := by
    simp [mapKeys, part3Table]
  refine ⟨by simp [part3Table], ?_, ?_⟩
  · rw [hkeys, List.Nodup.dedup hnodup, List.length_map]
  · intro r hr
    refine mapLookup_nodup_mem _ _ _ (by rw [hkeys]; exact hnodup) ?_
    exact List.mem_map.mpr ⟨r, hr, rfl⟩

/-- C6 witness: the completeness theorem applied to a concrete two-record
set with distinct primary codes. -/
theorem part3Table_complete_witness :
    mapLookup (part3Table [["rus", "rus", "rus", "ru", "I", "L", "Russian", ""],
        ["deu", "ger", "deu", "de", "I", "L", "German", ""]]) "rus" =
      some (recordToLanguage ["rus", "rus", "rus", "ru", "I", "L", "Russian", ""]) :=
  (part3Table_complete [["rus", "rus", "rus", "ru", "I", "L", "Russian", ""],
        ["deu", "ger", "deu", "de", "I", "L", "German", ""]] (by decide)).2.2
    ["rus", "rus", "rus", "ru", "I", "L", "Russian", ""] (by decide)

/-- C5: when a record's two secondary codes are non-empty and different and
the Part 2 table's keys are collision-free, both codes look up to records
with the same `Name` and the same `Part3` (one record under two keys). -/
theorem part2Table_aliasing (records : List RawRecord) (r : RawRecord)
    (hnodup : (mapKeys (part2Table records)).Nodup)
    (hmem : r ∈ records)
    (ha : r.getD 1 "" ≠ "") (hb : r.getD 2 "" ≠ "")
    (hab : r.getD 1 "" ≠ r.getD 2 "") :
    ∃ la lb,
      mapLookup (part2Table records) (r.getD 1 "") = some la ∧
      mapLookup (part2Table records) (r.getD 2 "") = some lb ∧
      la.Name = lb.Name ∧ la.Part3 = lb.Part3 := by
  have hmemA : (r.getD 1 "", recordToLanguage r) ∈ part2Table records := by
    refine List.mem_flatMap.mpr ⟨r, hmem, ?_⟩
    unfold part2Entries
    rw [if_neg ha, if_pos hab]
    exact List.mem_cons_self _ _
  have hmemB : (r.getD 2 "", recordToLanguage r) ∈ part2Table records := by
    refine List.mem_flatMap.mpr ⟨r, hmem, ?_⟩
    unfold part2Entries
    rw [if_neg ha, if_pos hab]
    exact List.mem_cons_of_mem _ (List.mem_singleton.mpr rfl)
  exact ⟨recordToLanguage r, recordToLanguage r,
    mapLookup_nodup_mem _ _ _ hnodup hmemA,
    mapLookup_nodup_mem _ _ _ hnodup hmemB, rfl, rfl⟩

/-- C5 witness: the aliasing theorem applied to a concrete record whose
two secondary codes are `ger` and `deu`. -/
theorem part2Table_aliasing_witness :
    ∃ la lb,
      mapLookup (part2Table [["deu", "ger", "deu", "de", "I", "L", "German", ""]])
        "ger" = some la ∧
      mapLookup (part2Table [["deu", "ger", "deu", "de", "I", "L", "German", ""]])
        "deu" = some lb ∧
      la.Name = lb.Name ∧ la.Part3 = lb.Part3 :=
  part2Table_aliasing [["deu", "ger", "deu", "de", "I", "L", "German", ""]]
    ["deu", "ger", "deu", "de", "I", "L", "German", ""]
    (by decide) (by decide) (by decide) (by decide) (by decide)

/-! ## Tabular Parser (`encoding/csv` with `Comma = '\t'`)

The generator feeds the raw byte stream to `csv.NewReader` (with tab as
the separator and default options) and then discards the first row
(`langInput = langInput[1:]`).  No byte-order-mark stripping happens
anywhere: the `utf8BOM` constant of `cmd/generator.go` is declared but
never used, so a leading BOM simply becomes part of the first field of
the first record.

The reader is modelled at the character level with its default options:
fields separated by tabs, records by newlines, blank lines skipped, a
field opening with a quote read as a quoted field (doubled quotes escape
a quote, and the field may span lines), a bare quote inside a non-quoted
field a fatal error, a closing quote followed by anything but a
separator, newline or end of input a fatal error, and every record
required to have as many fields as the first.  Carriage returns are not
modelled (they are ordinary characters here); the theorems below
hypothesize them absent.  Recursion is bounded by a fuel parameter that
every caller instantiates above the input length, so the out-of-fuel
branch is unreachable.  Error texts are abbreviated; the ok/error split
and the ok values match the Go reader. -/

/-- The `utf8BOM` constant of `cmd/generator.go` (`"﻿"`), as the
single character it denotes. -/
def utf8BOM : Char := '﻿'

/-- Read one non-quoted field: everything up to a tab, newline or end of
input.  Returns the field and the rest starting at the delimiter. -/
def readBareField : List Char → List Char × List Char
  | [] => ([], [])
  | c :: cs =>
    if c = '\t' ∨ c = '\n' then ([], c :: cs)
    else (c :: (readBareField cs).1, (readBareField cs).2)

/-- Read the body of a quoted field after its opening quote: a doubled
quote stands for a literal quote, tabs and newlines are ordinary, and
end of input before the closing quote is an error. -/
def readQuotedField : List Char → Except String (List Char × List Char)
  | [] => Except.error "extraneous or missing \" in quoted-field"
  | c :: cs =>
    if c = '"' then
      match cs with
      | [] => Except.ok ([], [])
      | c2 :: cs' =>
        if c2 = '"' then
          match readQuotedField cs' with
          | Except.error e => Except.error e
          | Except.ok p => Except.ok ('"' :: p.1, p.2)
        else Except.ok ([], c2 :: cs')
    else
      match readQuotedField cs with
      | Except.error e => Except.error e
      | Except.ok p => Except.ok (c :: p.1, p.2)

/-- Parse one field at the given position: a field opening with a quote
is read as a quoted field and must be followed by a separator, newline or
end of input; any other field runs to the next delimiter and must not
contain a quote. -/
def parseFieldAt (s : List Char) : Except String (List Char × List Char) :=
  if s.headD ' ' = '"' then
    match readQuotedField s.tail with
    | Except.error e => Except.error e
    | Except.ok (f, r) =>
      if r = [] ∨ r.headD ' ' = '\t' ∨ r.headD ' ' = '\n' then Except.ok (f, r)
      else Except.error "extraneous or missing \" in quoted-field"
  else
    if '"' ∈ (readBareField s).1 then
      Except.error "bare \" in non-quoted field"
    else Except.ok ((readBareField s).1, (readBareField s).2)

/-- Parse the fields of one record (fuel-bounded): after a field, a tab
continues the record and a newline or end of input ends it. -/
def parseFieldsF : Nat → List Char → Except String (List (List Char) × List Char)
  | 0, _ => Except.error "out of fuel"
  | n + 1, s =>
    match parseFieldAt s with
    | Except.error e => Except.error e
    | Except.ok (f, r) =>
      match r with
      | [] => Except.ok ([f], [])
      | c2 :: r' =>
        if c2 = '\t' then
          match parseFieldsF n r' with
          | Except.error e => Except.error e
          | Except.ok (fs, rest') => Except.ok (f :: fs, rest')
        else Except.ok ([f], r')

/-- Parse all records (fuel-bounded): blank lines are skipped, every
other position starts a record. -/
def parseRecordsF : Nat → List Char → Except String (List (List (List Char)))
  | 0, _ => Except.error "out of fuel"
  | m + 1, s =>
    match s with
    | [] => Except.ok []
    | c :: rest =>
      if c = '\n' then parseRecordsF m rest
      else
        match parseFieldsF ((c :: rest).length + 1) (c :: rest) with
        | Except.error e => Except.error e
        | Except.ok (r, rest') =>
          match parseRecordsF m rest' with
          | Except.error e => Except.error e
          | Except.ok recs => Except.ok (r :: recs)

/-- `tsvReader.ReadAll` of `cmd/generator.go`: parse every record and
require a uniform field count, inferred from the first record. -/
def tsvReadAll (s : List Char) : Except String (List (List (List Char))) :=
  match parseRecordsF (s.length + 1) s with
  | Except.error e => Except.error e
  | Except.ok recs =>
    if recs.all (fun r => r.length = (recs.headD []).length) then Except.ok recs
    else Except.error "wrong number of fields"

theorem list_length_ind {α : Type} {motive : List α → Prop}
    (h : ∀ s, (∀ t : List α, t.length < s.length → motive t) → motive s) :
    ∀ s, motive s := by
  have hn : ∀ n (s : List α), s.length ≤ n → motive s := by
    intro n
    induction n with
    | zero =>
      intro s hs
      exact h s (fun t ht => absurd ht (by omega))
    | succ n ih =>
      intro s hs
      exact h s (fun t ht => ih t (by omega))
  exact fun s => hn s.length s (le_refl _)

theorem readBareField_append (s : List Char) :
    (readBareField s).1 ++ (readBareField s).2 = s := by
  induction s with
  | nil => rfl
  | cons c cs ih =>
    unfold readBareField
    by_cases h : c = '\t' ∨ c = '\n'
    · rw [if_pos h]; rfl
    · rw [if_neg h]
      simpa using ih

theorem readBareField_bom (x : List Char) :
    readBareField (utf8BOM :: x) =
      (utf8BOM :: (readBareField x).1, (readBareField x).2) := by
  conv_lhs => unfold readBareField
  rw [if_neg (by decide : ¬(utf8BOM = '\t' ∨ utf8BOM = '\n'))]

theorem readQuotedField_length :
    ∀ l f r, readQuotedField l = Except.ok (f, r) → r.length < l.length := by
  refine list_length_ind (fun l ih => ?_)
  intro f r h
  rcases l with _ | ⟨c, cs⟩
  · cases h
  · unfold readQuotedField at h
    by_cases hc : c = '"'
    · subst hc
      rw [if_pos rfl] at h
      rcases cs with _ | ⟨c2, cs'⟩
      · cases h; simp
      · simp only [] at h
        by_cases hc2 : c2 = '"'
        · rw [if_pos hc2] at h
          rcases hrec : readQuotedField cs' with e | p <;> rw [hrec] at h
          · cases h
          · cases h
            have := ih cs' (by simp only [List.length_cons]; omega) p.1 p.2 (by rw [hrec])
            simp only [List.length_cons]
            omega
        · rw [if_neg hc2] at h
          cases h
          simp
    · rw [if_neg hc] at h
      rcases hrec : readQuotedField cs with e | p <;> rw [hrec] at h
      · cases h
      · cases h
        have := ih cs (by simp only [List.length_cons]; omega) p.1 p.2 (by rw [hrec])
        simp only [List.length_cons]
        omega

theorem readQuotedField_subset :
    ∀ l f r, readQuotedField l = Except.ok (f, r) →
      (∀ ch ∈ f, ch ∈ l) ∧ (∀ ch ∈ r, ch ∈ l) := by
  refine list_length_ind (fun l ih => ?_)
  intro f r h
  rcases l with _ | ⟨c, cs⟩
  · cases h
  · unfold readQuotedField at h
    by_cases hc : c = '"'
    · subst hc
      rw [if_pos rfl] at h
      rcases cs with _ | ⟨c2, cs'⟩
      · cases h
        exact ⟨fun ch hch => absurd hch (List.not_mem_nil ch),
               fun ch hch => absurd hch (List.not_mem_nil ch)⟩
      · simp only [] at h
        by_cases hc2 : c2 = '"'
        · rw [if_pos hc2] at h
          rcases hrec : readQuotedField cs' with e | p <;> rw [hrec] at h
          · cases h
          · cases h
            have hsub := ih cs' (by simp only [List.length_cons]; omega) p.1 p.2 (by rw [hrec])
            constructor
            · intro ch hch
              rcases List.mem_cons.mp hch with rfl | hch
              · exact List.mem_cons_self _ _
              · exact List.mem_cons_of_mem _ (List.mem_cons_of_mem _
                  (hsub.1 ch hch))
            · intro ch hch
              exact List.mem_cons_of_mem _ (List.mem_cons_of_mem _
                (hsub.2 ch hch))
        · rw [if_neg hc2] at h
          cases h
          exact ⟨fun ch hch => absurd hch (List.not_mem_nil ch),
                 fun ch hch => List.mem_cons_of_mem _ hch⟩
    · rw [if_neg hc] at h
      rcases hrec : readQuotedField cs with e | p <;> rw [hrec] at h
      · cases h
      · cases h
        have hsub := ih cs (by simp only [List.length_cons]; omega) p.1 p.2 (by rw [hrec])
        constructor
        · intro ch hch
          rcases List.mem_cons.mp hch with rfl | hch
          · exact List.mem_cons_self _ _
          · exact List.mem_cons_of_mem _ (hsub.1 ch hch)
        · intro ch hch
          exact List.mem_cons_of_mem _ (hsub.2 ch hch)

theorem parseFieldAt_length (s f r : List Char)
    (h : parseFieldAt s = Except.ok (f, r)) : r.length ≤ s.length := by
  unfold parseFieldAt at h
  by_cases hq : s.headD ' ' = '"'
  · rw [if_pos hq] at h
    rcases hrq : readQuotedField s.tail with e | ⟨f0, r0⟩ <;> rw [hrq] at h
    · cases h
    · simp only [] at h
      by_cases hr : r0 = [] ∨ r0.headD ' ' = '\t' ∨ r0.headD ' ' = '\n'
      · rw [if_pos hr] at h
        cases h
        have h1 := readQuotedField_length s.tail f r hrq
        have h2 : s.tail.length ≤ s.length := by
          rcases s with _ | ⟨a, as⟩ <;> simp
        omega
      · rw [if_neg hr] at h; cases h
  · rw [if_neg hq] at h
    by_cases hmem : '"' ∈ (readBareField s).1
    · rw [if_pos hmem] at h; cases h
    · rw [if_neg hmem] at h
      cases h
      have hlen := congrArg List.length (readBareField_append s)
      simp only [List.length_append] at hlen
      omega

theorem parseFieldAt_subset (s f r : List Char)
    (h : parseFieldAt s = Except.ok (f, r)) :
    (∀ ch ∈ f, ch ∈ s) ∧ (∀ ch ∈ r, ch ∈ s) := by
  unfold parseFieldAt at h
  by_cases hq : s.headD ' ' = '"'
  · rw [if_pos hq] at h
    rcases hrq : readQuotedField s.tail with e | ⟨f0, r0⟩ <;> rw [hrq] at h
    · cases h
    · simp only [] at h
      by_cases hr : r0 = [] ∨ r0.headD ' ' = '\t' ∨ r0.headD ' ' = '\n'
      · rw [if_pos hr] at h
        cases h
        have hsub := readQuotedField_subset s.tail f r hrq
        have htail : ∀ ch : Char, ch ∈ s.tail → ch ∈ s := by
          intro ch hch
          rcases s with _ | ⟨a, as⟩
          · cases hch
          · exact List.mem_cons_of_mem _ hch
        exact ⟨fun ch hch => htail ch (hsub.1 ch hch),
               fun ch hch => htail ch (hsub.2 ch hch)⟩
      · rw [if_neg hr] at h; cases h
  · rw [if_neg hq] at h
    by_cases hmem : '"' ∈ (readBareField s).1
    · rw [if_pos hmem] at h; cases h
    · rw [if_neg hmem] at h
      cases h
      have happ := readBareField_append s
      constructor
      · intro ch hch
        rw [← happ]
        exact List.mem_append_left _ hch
      · intro ch hch
        rw [← happ]
        exact List.mem_append_right _ hch

theorem parseFieldAt_bom (x : List Char) (hq : x.headD ' ' ≠ '"') :
    (∀ e, parseFieldAt x = Except.error e →
      parseFieldAt (utf8BOM :: x) = Except.error e) ∧
    (∀ f r, parseFieldAt x = Except.ok (f, r) →
      parseFieldAt (utf8BOM :: x) = Except.ok (utf8BOM :: f, r)) := by
  have hb : (utf8BOM :: x).headD ' ' ≠ '"' := by
    rw [List.headD_cons]; decide
  have hbq : ∀ l : List Char, '"' ∈ utf8BOM :: l ↔ '"' ∈ l := by
    intro l
    constructor
    · intro hm
      rcases List.mem_cons.mp hm with he | hm
      · cases he
      · exact hm
    · exact fun hm => List.mem_cons_of_mem _ hm
  constructor
  · intro e h
    unfold parseFieldAt at h ⊢
    rw [if_neg hq] at h
    rw [if_neg hb, readBareField_bom]
    by_cases hmem : '"' ∈ (readBareField x).1
    · rw [if_pos hmem] at h
      rw [if_pos ((hbq _).mpr hmem)]
      exact h
    · rw [if_neg hmem] at h
      cases h
  · intro f r h
    unfold parseFieldAt at h ⊢
    rw [if_neg hq] at h
    rw [if_neg hb, readBareField_bom]
    by_cases hmem : '"' ∈ (readBareField x).1
    · rw [if_pos hmem] at h
      cases h
    · rw [if_neg hmem] at h
      cases h
      rw [if_neg (fun hm => hmem ((hbq _).mp hm))]

theorem parseFieldsF_ok_cons :
    ∀ n s fields rest', parseFieldsF n s = Except.ok (fields, rest') →
      ∃ f fs, fields = f :: fs := by
  intro n s fields rest' h
  rcases n with _ | n
  · cases h
  · unfold parseFieldsF at h
    rcases hfa : parseFieldAt s with e | ⟨f, r⟩ <;> rw [hfa] at h
    · cases h
    · simp only [] at h
      rcases r with _ | ⟨c2, r'⟩
      · cases h
        exact ⟨f, [], rfl⟩
      · simp only [] at h
        by_cases hc2 : c2 = '\t'
        · rw [if_pos hc2] at h
          rcases hrec : parseFieldsF n r' with e | ⟨fs0, rest0⟩ <;> rw [hrec] at h
          · cases h
          · cases h
            exact ⟨f, fs0, rfl⟩
        · rw [if_neg hc2] at h
          cases h
          exact ⟨f, [], rfl⟩

theorem parseFieldsF_length :
    ∀ n s fields rest', parseFieldsF n s = Except.ok (fields, rest') →
      rest'.length ≤ s.length ∧ (s ≠ [] → rest'.length < s.length) := by
  intro n
  induction n with
  | zero => intro s fields rest' h; cases h
  | succ n ih =>
    intro s fields rest' h
    unfold parseFieldsF at h
    rcases hfa : parseFieldAt s with e | ⟨f, r⟩ <;> rw [hfa] at h
    · cases h
    · simp only [] at h
      have hr := parseFieldAt_length s f r hfa
      rcases r with _ | ⟨c2, r'⟩
      · cases h
        refine ⟨by simp, fun hne => ?_⟩
        have : 0 < s.length := List.length_pos.mpr hne
        simpa using this
      · simp only [] at h
        have hr' : r'.length < s.length := by
          simp only [List.length_cons] at hr; omega
        by_cases hc2 : c2 = '\t'
        · rw [if_pos hc2] at h
          rcases hrec : parseFieldsF n r' with e | ⟨fs0, rest0⟩ <;> rw [hrec] at h
          · cases h
          · cases h
            have hle := (ih r' _ _ hrec).1
            exact ⟨by omega, fun _ => by omega⟩
        · rw [if_neg hc2] at h
          cases h
          exact ⟨by omega, fun _ => by omega⟩

theorem parseFieldsF_subset :
    ∀ n s fields rest', parseFieldsF n s = Except.ok (fields, rest') →
      (∀ fld ∈ fields, ∀ ch ∈ fld, ch ∈ s) ∧ (∀ ch ∈ rest', ch ∈ s) := by
  intro n
  induction n with
  | zero => intro s fields rest' h; cases h
  | succ n ih =>
    intro s fields rest' h
    unfold parseFieldsF at h
    rcases hfa : parseFieldAt s with e | ⟨f, r⟩ <;> rw [hfa] at h
    · cases h
    · simp only [] at h
      have hsub := parseFieldAt_subset s f r hfa
      rcases r with _ | ⟨c2, r'⟩
      · cases h
        refine ⟨fun fld hfld ch hch => ?_, fun ch hch => absurd hch (List.not_mem_nil ch)⟩
        rcases List.mem_singleton.mp hfld with rfl
        exact hsub.1 ch hch
      · simp only [] at h
        have hchr : ∀ ch ∈ r', ch ∈ s := fun ch hch =>
          hsub.2 ch (List.mem_cons_of_mem _ hch)
        by_cases hc2 : c2 = '\t'
        · rw [if_pos hc2] at h
          rcases hrec : parseFieldsF n r' with e | ⟨fs0, rest0⟩ <;> rw [hrec] at h
          · cases h
          · cases h
            have hih := ih r' _ _ hrec
            refine ⟨fun fld hfld ch hch => ?_, fun ch hch => hchr ch (hih.2 ch hch)⟩
            rcases List.mem_cons.mp hfld with rfl | hfld'
            · exact hsub.1 ch hch
            · exact hchr ch (hih.1 fld hfld' ch hch)
        · rw [if_neg hc2] at h
          cases h
          refine ⟨fun fld hfld ch hch => ?_, hchr⟩
          rcases List.mem_singleton.mp hfld with rfl
          exact hsub.1 ch hch

theorem parseFieldsF_mono :
    ∀ n m s, s.length < n → s.length < m → parseFieldsF n s = parseFieldsF m s := by
  intro n
  induction n with
  | zero => intro m s h1 _; exact absurd h1 (by omega)
  | succ n ih =>
    intro m s h1 h2
    rcases m with _ | m
    · exact absurd h2 (by omega)
    · unfold parseFieldsF
      rcases hfa : parseFieldAt s with e | ⟨f, r⟩
      · rfl
      · simp only []
        rcases r with _ | ⟨c2, r'⟩
        · rfl
        · simp only []
          have hr := parseFieldAt_length s f (c2 :: r') hfa
          have hr' : r'.length < s.length := by
            simp only [List.length_cons] at hr; omega
          by_cases hc2 : c2 = '\t'
          · rw [if_pos hc2, ih m r' (by omega) (by omega), if_pos hc2]
          · rw [if_neg hc2, if_neg hc2]

theorem parseFieldsF_bom :
    ∀ n x, x.headD ' ' ≠ '"' →
      (∀ e, parseFieldsF n x = Except.error e →
        parseFieldsF n (utf8BOM :: x) = Except.error e) ∧
      (∀ f fs rest', parseFieldsF n x = Except.ok (f :: fs, rest') →
        parseFieldsF n (utf8BOM :: x) = Except.ok ((utf8BOM :: f) :: fs, rest')) := by
  intro n x hq
  rcases n with _ | n
  · exact ⟨fun e h => h, fun f fs rest' h => by cases h⟩
  · unfold parseFieldsF
    rcases hfa : parseFieldAt x with e | ⟨f0, r⟩
    · rw [(parseFieldAt_bom x hq).1 e hfa]
      exact ⟨fun e' h => h, fun f fs rest' h => by cases h⟩
    · rw [(parseFieldAt_bom x hq).2 f0 r hfa]
      simp only []
      rcases r with _ | ⟨c2, r'⟩
      · refine ⟨?_, ?_⟩
        · intro e h
          cases h
        · intro f fs rest' h
          cases h
          rfl
      · simp only []
        by_cases hc2 : c2 = '\t'
        · rw [if_pos hc2, if_pos hc2]
          rcases hrec : parseFieldsF n r' with e | ⟨fs0, rest0⟩
          · refine ⟨?_, ?_⟩
            · intro e' h
              exact h
            · intro f fs rest' h
              cases h
          · refine ⟨?_, ?_⟩
            · intro e h
              cases h
            · intro f fs rest' h
              cases h
              rfl
        · rw [if_neg hc2, if_neg hc2]
          refine ⟨?_, ?_⟩
          · intro e h
            cases h
          · intro f fs rest' h
            cases h
            rfl

theorem parseRecordsF_mono :
    ∀ m m' s, s.length < m → s.length < m' →
      parseRecordsF m s = parseRecordsF m' s := by
  intro m
  induction m with
  | zero => intro m' s h1 _; exact absurd h1 (by omega)
  | succ m ih =>
    intro m' s h1 h2
    rcases m' with _ | m'
    · exact absurd h2 (by omega)
    · unfold parseRecordsF
      rcases s with _ | ⟨c, rest⟩
      · rfl
      · simp only []
        by_cases hc : c = '\n'
        · rw [if_pos hc, if_pos hc]
          exact ih m' rest (by simp only [List.length_cons] at h1; omega)
            (by simp only [List.length_cons] at h2; omega)
        · rw [if_neg hc, if_neg hc]
          rcases hf : parseFieldsF ((c :: rest).length + 1) (c :: rest)
              with e | ⟨r1, rest'⟩
          · rfl
          · simp only []
            have hlt : rest'.length < (c :: rest).length :=
              (parseFieldsF_length _ _ _ _ hf).2 (by simp)
            rw [ih m' rest' (by omega) (by omega)]

theorem parseRecordsF_subset :
    ∀ m s recs, parseRecordsF m s = Except.ok recs →
      ∀ r0 ∈ recs, ∀ fld ∈ r0, ∀ ch ∈ fld, ch ∈ s := by
  intro m
  induction m with
  | zero => intro s recs h; cases h
  | succ m ih =>
    intro s recs h r0 hr0 fld hfld ch hch
    unfold parseRecordsF at h
    rcases s with _ | ⟨c, rest⟩
    · cases h
      cases hr0
    · simp only [] at h
      by_cases hc : c = '\n'
      · rw [if_pos hc] at h
        exact List.mem_cons_of_mem _ (ih rest recs h r0 hr0 fld hfld ch hch)
      · rw [if_neg hc] at h
        rcases hf : parseFieldsF ((c :: rest).length + 1) (c :: rest)
            with e | ⟨r1, rest'⟩ <;> rw [hf] at h
        · cases h
        · simp only [] at h
          rcases hrec : parseRecordsF m rest' with e | recs0 <;> rw [hrec] at h
          · cases h
          · cases h
            rcases List.mem_cons.mp hr0 with rfl | hr0'
            · exact (parseFieldsF_subset _ _ _ _ hf).1 fld hfld ch hch
            · exact (parseFieldsF_subset _ _ _ _ hf).2 ch
                (ih rest' recs0 hrec r0 hr0' fld hfld ch hch)

theorem parseRecordsF_bom :
    ∀ m (c : Char) s', c ≠ '\n' → c ≠ '"' →
      (∀ e, parseRecordsF m (c :: s') = Except.error e →
        parseRecordsF m (utf8BOM :: c :: s') = Except.error e) ∧
      (∀ r0 recs, parseRecordsF m (c :: s') = Except.ok (r0 :: recs) →
        ∃ f fs, r0 = f :: fs ∧
          parseRecordsF m (utf8BOM :: c :: s') =
            Except.ok (((utf8BOM :: f) :: fs) :: recs)) ∧
      parseRecordsF m (c :: s') ≠ Except.ok [] := by
  intro m c s' hcnl hcq
  rcases m with _ | m
  · refine ⟨fun e h => h, ?_, ?_⟩
    · intro r0 recs h
      cases h
    · intro h
      cases h
  · have hbnl : utf8BOM ≠ '\n' := by decide
    have hq : (c :: s').headD ' ' ≠ '"' := by
      rw [List.headD_cons]; exact hcq
    unfold parseRecordsF
    simp only [List.length_cons]
    rw [if_neg hcnl, if_neg hbnl]
    have hmono := parseFieldsF_mono (s'.length + 1 + 1) (s'.length + 1 + 1 + 1)
      (c :: s') (by simp only [List.length_cons]; omega)
      (by simp only [List.length_cons]; omega)
    rcases hf : parseFieldsF (s'.length + 1 + 1) (c :: s') with e | ⟨rec0, rest'⟩
    · have hb := (parseFieldsF_bom (s'.length + 1 + 1 + 1) (c :: s') hq).1 e
        (hmono ▸ hf)
      rw [hb]
      refine ⟨fun e' h => h, ?_, ?_⟩
      · intro r0 recs h
        cases h
      · intro h
        cases h
    · obtain ⟨f, fs, rfl⟩ := parseFieldsF_ok_cons _ _ _ _ hf
      have hfok : parseFieldsF (s'.length + 1 + 1 + 1) (c :: s') =
          Except.ok (f :: fs, rest') := hmono ▸ hf
      have hb := (parseFieldsF_bom (s'.length + 1 + 1 + 1) (c :: s') hq).2
        f fs rest' hfok
      rw [hb]
      simp only []
      rcases hrec : parseRecordsF m rest' with e | recs0
      · refine ⟨fun e' h => h, ?_, ?_⟩
        · intro r0 recs h
          cases h
        · intro h
          cases h
      · refine ⟨?_, ?_, ?_⟩
        · intro e h
          cases h
        · intro r0 recs h
          cases h
          exact ⟨f, fs, rfl, rfl⟩
        · intro h
          cases h

/-- A stream whose header's first field is quoted. -/
def quotedStream : List Char := ['"', 'a', '"', '\t', 'b', '\n', 'c', '\t', 'd']

/-- C2 counterexample: the byte-order-mark is not tolerated in general.
Prepending it to a stream whose header's first field is a quoted field
turns a successful parse (header `a`,`b`; one data row `c`,`d`) into a
fatal bare-quote error: the BOM makes the first field non-quoted while it
still contains quote characters. -/
theorem bom_not_tolerated_counterexample :
    tsvReadAll quotedStream =
      Except.ok [[['a'], ['b']], [['c'], ['d']]] ∧
    tsvReadAll (utf8BOM :: quotedStream) =
      Except.error "bare \" in non-quoted field" :=
  ⟨rfl, rfl⟩

/-- C2 (amended): for a stream whose first line is non-blank and whose
first field is not quoted (and which contains no BOM of its own and no
carriage returns, which the model does not treat specially), a leading
byte-order-mark is tolerated: reading with the BOM errors exactly when
reading without it errors, the rows after the discarded header are
identical in both readings, and no field of any data row contains the
BOM — it is absorbed by the first field of the discarded header row. -/
theorem bom_tolerated_amended (s : List Char)
    (hne : s ≠ []) (hq : s.headD ' ' ≠ '"') (hnl : s.headD ' ' ≠ '\n')
    (hbom : utf8BOM ∉ s) (hcr : '\x0d' ∉ s) :
    (tsvReadAll (utf8BOM :: s)).map (fun rows => rows.drop 1) =
      (tsvReadAll s).map (fun rows => rows.drop 1) ∧
    ∀ rows, tsvReadAll (utf8BOM :: s) = Except.ok rows →
      ∀ r0 ∈ rows.drop 1, ∀ fld ∈ r0, utf8BOM ∉ fld := by
  obtain ⟨c, s', rfl⟩ : ∃ c s', s = c :: s' := by
    rcases s with _ | ⟨c, s'⟩
    · exact absurd rfl hne
    · exact ⟨c, s', rfl⟩
  have hcq : c ≠ '"' := by rw [List.headD_cons] at hq; exact hq
  have hcnl : c ≠ '\n' := by rw [List.headD_cons] at hnl; exact hnl
  unfold tsvReadAll
  simp only [List.length_cons]
  have hmono := parseRecordsF_mono (s'.length + 1 + 1) (s'.length + 1 + 1 + 1)
    (c :: s') (by simp only [List.length_cons]; omega)
    (by simp only [List.length_cons]; omega)
  have hbom3 := parseRecordsF_bom (s'.length + 1 + 1 + 1) c s' hcnl hcq
  rcases hr : parseRecordsF (s'.length + 1 + 1) (c :: s') with e | recs
  · rw [hbom3.1 e (hmono ▸ hr)]
    constructor
    · rfl
    · intro rows h
      cases h
  · rcases recs with _ | ⟨r0, recs0⟩
    · exact absurd (hmono ▸ hr) hbom3.2.2
    · obtain ⟨f, fs, rfl, hL⟩ := hbom3.2.1 r0 recs0 (hmono ▸ hr)
      rw [hL]
      simp only []
      have hcnt : (((utf8BOM :: f) :: fs) :: recs0).all
            (fun r => r.length = ((((utf8BOM :: f) :: fs) :: recs0).headD []).length) =
          ((f :: fs) :: recs0).all
            (fun r => r.length = (((f :: fs) :: recs0).headD []).length) := by
        simp [List.all_cons, List.headD_cons]
      rw [hcnt]
      by_cases hall : ((f :: fs) :: recs0).all
          (fun r => r.length = (((f :: fs) :: recs0).headD []).length) = true
      · rw [if_pos hall, if_pos hall]
        constructor
        · rfl
        · intro rows h
          cases h
          intro r1 hr1 fld hfld hmem
          have hsub := parseRecordsF_subset (s'.length + 1 + 1) (c :: s')
            ((f :: fs) :: recs0) hr r1
            (List.mem_cons_of_mem _ (by simpa using hr1)) fld hfld utf8BOM hmem
          exact hbom hsub
      · rw [if_neg hall, if_neg hall]
        constructor
        · rfl
        · intro rows h
          cases h

/-- C2 witness: the amended theorem applied to the concrete stream
`a TAB b NEWLINE c TAB d`. -/
theorem bom_tolerated_amended_witness :
    (tsvReadAll (utf8BOM :: ['a', '\t', 'b', '\n', 'c', '\t', 'd'])).map
        (fun rows => rows.drop 1) =
      (tsvReadAll ['a', '\t', 'b', '\n', 'c', '\t', 'd']).map
        (fun rows => rows.drop 1) :=
  (bom_tolerated_amended ['a', '\t', 'b', '\n', 'c', '\t', 'd']
    (by decide) (by decide) (by decide) (by decide) (by decide)).1

/-! ## Emitter (`outputStruct` in `cmd/generator.go`)

`outputStruct` writes `"key": {` then, for each non-empty field in struct
order, `Name: "value"` (string kind) or `Name: 'value'` (rune kind) with
`, ` between emitted fields, then `},` and a newline.  It performs no
escaping of field values.  It aborts the run when the record does not have
exactly 8 fields. -/

/-- `languageStructFields` from `cmd/generator.go`: field name and whether
the field is emitted as a Go string (`true`) or as a rune literal
(`false`). -/
def fieldKinds : List (String × Bool) :=
  [("Part3", true), ("Part2B", true), ("Part2T", true), ("Part1", true),
   ("Scope", false), ("LanguageType", false), ("Name", true), ("Comment", true)]

/-- The fields `outputStruct` actually emits for a record: the non-empty
ones, each with its name, kind and value. -/
def presentFields (record : RawRecord) : List (String × Bool × String) :=
  (fieldKinds.zip record).filterMap
    (fun p => if p.2 = "" then none else some (p.1.1, p.1.2, p.2))

/-- The characters of one emitted field assignment. -/
def renderField (f : String × Bool × String) : List Char :=
  f.1.data ++ [':', ' '] ++
    (if f.2.1 then '"' :: (f.2.2.data ++ ['"'])
     else '\x27' :: (f.2.2.data ++ ['\x27']))

/-- The emitted field list with `, ` between consecutive fields. -/
def renderBody : List (String × Bool × String) → List Char
  | [] => []
  | [f] => renderField f
  | f :: g :: rest => renderField f ++ ',' :: ' ' :: renderBody (g :: rest)

/-- The full text `outputStruct` writes for one key and record. -/
def emitStruct (key : String) (record : RawRecord) : String :=
  String.mk ('"' :: (key.data ++ '"' :: ':' :: ' ' :: '\x7b' ::
    (renderBody (presentFields record) ++ '\x7d' :: ',' :: '\n' :: [])))

/-- `outputStruct` as a fallible step: `log.Fatalf` on a record whose
field count is not 8 is modelled as an error result. -/
def outputStructE (key : String) (record : RawRecord) : Except String String :=
  if record.length = 8 then Except.ok (emitStruct key record)
  else Except.error "outputStruct got malformed record"

/-- One generator emission loop: run the per-record step over every
record in order, concatenating the emitted text, aborting on the first
error. -/
def emitAllE (f : RawRecord → Except String String) :
    List RawRecord → Except String String
  | [] => Except.ok ""
  | r :: rest =>
    match f r with
    | Except.error e => Except.error e
    | Except.ok s =>
      match emitAllE f rest with
      | Except.error e => Except.error e
      | Except.ok srest => Except.ok (s ++ srest)

/-- `sourceFilePrefix` from `cmd/generator.go`. -/
def sourceFilePrefix : String := "package iso639_3\n\n"

/-- `part3Prefix` from `cmd/generator.go`. -/
def part3Prefix : String :=
  "// Languages part 3 lookup table. Keys are ISO 639-3 codes\nvar LanguagesPart3 = map[string]Language\x7b\n"

/-- `part2Prefix` from `cmd/generator.go`. -/
def part2Prefix : String :=
  "// Languages part 2 lookup table. Keys are ISO 639-2 codes\nvar LanguagesPart2 = map[string]Language\x7b\n"

/-- `part1Prefix` from `cmd/generator.go`. -/
def part1Prefix : String :=
  "// Languages part 1 lookup table. Keys are ISO 639-1 codes\nvar LanguagesPart1 = map[string]Language\x7b\n"

/-- `lookupSuffix` from `cmd/generator.go`. -/
def lookupSuffix : String := "\x7d\n"

/-- `outputLookup` from `cmd/generator.go`: the three emission loops over
the records, each write modelled as buffered concatenation (the Go code
writes everything into one buffer and flushes it at the end, so an abort
mid-loop produces no output at all).  The final `gofmt` re-formatting pass
is not modelled. -/
def part2StructsE (r : RawRecord) : Except String String :=
  if r.getD 1 "" = "" then Except.ok ""
  else if r.getD 1 "" ≠ r.getD 2 "" then
    match outputStructE (r.getD 1 "") r with
    | Except.error e => Except.error e
    | Except.ok s1 =>
      match outputStructE (r.getD 2 "") r with
      | Except.error e => Except.error e
      | Except.ok s2 => Except.ok (s1 ++ s2)
  else outputStructE (r.getD 1 "") r

def part1StructsE (r : RawRecord) : Except String String :=
  if r.getD 3 "" = "" then Except.ok "" else outputStructE (r.getD 3 "") r

def outputLookupE (records : List RawRecord) : Except String String :=
  match emitAllE (fun r => outputStructE (r.getD 0 "") r) records with
  | Except.error e => Except.error e
  | Except.ok p3text =>
    match emitAllE part2StructsE records with
    | Except.error e => Except.error e
    | Except.ok p2text =>
      match emitAllE part1StructsE records with
      | Except.error e => Except.error e
      | Except.ok p1text =>
        Except.ok (sourceFilePrefix ++ part3Prefix ++ p3text ++ lookupSuffix ++
          part2Prefix ++ p2text ++ lookupSuffix ++
          part1Prefix ++ p1text ++ lookupSuffix)

/-- The tab reader's shape check (`encoding/csv` with `FieldsPerRecord`
inferred from the first row): every row must have as many fields as the
first row, otherwise reading aborts. -/
def csvReadAll (rows : List RawRecord) : Except String (List RawRecord) :=
  if rows.all (fun r => r.length = (rows.headD []).length) then Except.ok rows
  else Except.error "wrong number of fields"

/-- `main` of `cmd/generator.go` after input acquisition: read all rows,
drop the header row, emit the three lookup tables. -/
def generatorRun (rows : List RawRecord) : Except String String :=
  match csvReadAll rows with
  | Except.error e => Except.error e
  | Except.ok allRows => outputLookupE (allRows.drop 1)

theorem emitAllE_ok_forall (f : RawRecord → Except String String)
    (l : List RawRecord) (v : String) (h : emitAllE f l = Except.ok v) :
    ∀ r ∈ l, ∃ s, f r = Except.ok s := by
  induction l generalizing v with
  | nil => intro r hr; cases hr
  | cons a rest ih =>
    intro r hr
    unfold emitAllE at h
    rcases hfa : f a with e | s
    · rw [hfa] at h; cases h
    · rw [hfa] at h
      rcases hrest : emitAllE f rest with e | srest
      · rw [hrest] at h; cases h
      · rcases List.mem_cons.mp hr with rfl | hr'
        · exact ⟨s, hfa⟩
        · exact ih srest hrest r hr'

theorem csvReadAll_ok (rows v : List RawRecord)
    (h : csvReadAll rows = Except.ok v) : v = rows := by
  unfold csvReadAll at h
  split at h
  · cases h; rfl
  · cases h

theorem outputLookupE_ok_part3 (records : List RawRecord) (out : String)
    (h : outputLookupE records = Except.ok out) :
    ∃ v, emitAllE (fun r => outputStructE (r.getD 0 "") r) records =
      Except.ok v := by
  unfold outputLookupE at h
  rcases h3 : emitAllE (fun r => outputStructE (r.getD 0 "") r) records
      with e | v
  · rw [h3] at h; cases h
  · exact ⟨v, rfl⟩

/-- C7: any input whose data rows (the rows after the header) contain a
row with a field count other than 8 makes the generator run abort with an
error instead of producing output. -/
theorem bad_field_count_fatal (rows : List RawRecord) (r : RawRecord)
    (hmem : r ∈ rows.drop 1) (hbad : r.length ≠ 8) :
    ∃ e, generatorRun rows = Except.error e := by
  rcases hrun : generatorRun rows with e | out
  · exact ⟨e, rfl⟩
  · exfalso
    unfold generatorRun at hrun
    rcases hread : csvReadAll rows with e | allRows
    · rw [hread] at hrun; cases hrun
    · rw [hread] at hrun
      have hall : allRows = rows := csvReadAll_ok rows allRows hread
      subst hall
      rcases outputLookupE_ok_part3 _ _ hrun with ⟨v, h3⟩
      rcases emitAllE_ok_forall _ _ _ h3 r hmem with ⟨s, hs⟩
      unfold outputStructE at hs
      rw [if_neg hbad] at hs
      cases hs

/-- C7 witness: the fatal-abort theorem applied to a concrete input whose
single data row has 2 fields. -/
theorem bad_field_count_fatal_witness :
    ∃ e, generatorRun [["h1", "h2", "h3", "h4", "h5", "h6", "h7", "h8"],
        ["aaa", "abb"]] = Except.error e :=
  bad_field_count_fatal
    [["h1", "h2", "h3", "h4", "h5", "h6", "h7", "h8"], ["aaa", "abb"]]
    ["aaa", "abb"] (by decide) (by decide)

/-! ## Round trip through the emitted form

A loader of the output format.  The emitted form is Go source, so the
loader reads Go literals: inside a `"…"` string literal or `'…'` rune
literal a backslash starts an escape sequence (the single-character
escapes are decoded; numeric escapes are not modelled — the emitter never
produces a backslash and the round-trip theorem's hypotheses exclude
them), a raw newline is invalid (the real pipeline would abort at the
`gofmt` formatting step), and a rune literal must hold exactly one
character.  Omitted fields are reconstructed as empty. -/

/-- Read characters up to the next `:`, returning them and the rest. -/
def readIdent : List Char → Option (List Char × List Char)
  | [] => none
  | c :: cs =>
    if c = ':' then some ([], cs)
    else (readIdent cs).map (fun p => (c :: p.1, p.2))

/-- Decode a single-character Go escape sequence (`\n`, `\t`, …).
Numeric escapes (`\x..`, `\u….`, octal) are not modelled and are
rejected. -/
def unescapeChar (c : Char) : Option Char :=
  if c = 'n' then some '\n'
  else if c = 't' then some '\t'
  else if c = 'r' then some '\x0d'
  else if c = '\\' then some '\\'
  else if c = '"' then some '"'
  else if c = '\x27' then some '\x27'
  else if c = 'a' then some '\x07'
  else if c = 'b' then some '\x08'
  else if c = 'f' then some '\x0c'
  else if c = 'v' then some '\x0b'
  else none

/-- Read the body of a Go string or rune literal opened by the quote `q`,
decoding escape sequences, up to the closing quote.  A raw newline or an
unmodelled escape is invalid. -/
def readGoLiteral (q : Char) : List Char → Option (List Char × List Char)
  | [] => none
  | c :: cs =>
    if c = q then some ([], cs)
    else if c = '\n' then none
    else if c = '\\' then
      match cs with
      | [] => none
      | e :: cs' =>
        match unescapeChar e with
        | none => none
        | some d => (readGoLiteral q cs').map (fun p => (d :: p.1, p.2))
    else (readGoLiteral q cs).map (fun p => (c :: p.1, p.2))

/-- Parse one `Name: "value"` or `Name: 'value'` assignment; a rune
literal must decode to exactly one character. -/
def parseOneField (s : List Char) : Option ((String × String) × List Char) :=
  match readIdent s with
  | none => none
  | some (nm, r1) =>
    match r1 with
    | [] => none
    | c1 :: r2 =>
      if c1 = ' ' then
        match r2 with
        | [] => none
        | q :: r3 =>
          if q = '"' then
            match readGoLiteral '"' r3 with
            | none => none
            | some (v, r4) => some ((String.mk nm, String.mk v), r4)
          else if q = '\x27' then
            match readGoLiteral '\x27' r3 with
            | none => none
            | some (v, r4) =>
              if v.length = 1 then some ((String.mk nm, String.mk v), r4)
              else none
          else none
      else none

/-- Parse up to `n` comma-separated field assignments, stopping at the
closing brace (which is consumed). -/
def parseBodyN (n : Nat) (s : List Char) :
    Option (List (String × String) × List Char) :=
  match s with
  | [] => none
  | c :: rest =>
    if c = '\x7d' then some ([], rest)
    else
      match n with
      | 0 => none
      | m + 1 =>
        match parseOneField (c :: rest) with
        | none => none
        | some (pair, r1) =>
          let r2 := if r1.take 2 = [',', ' '] then r1.drop 2 else r1
          match parseBodyN m r2 with
          | none => none
          | some (pairs, r3) => some (pair :: pairs, r3)

/-- Parse one emitted struct literal line back into its key and its field
assignments. -/
def parseStruct (s : List Char) : Option (String × List (String × String)) :=
  match s with
  | [] => none
  | c :: r1 =>
    if c = '"' then
      match readGoLiteral '"' r1 with
      | none => none
      | some (key, r2) =>
        if r2.take 3 = [':', ' ', '\x7b'] then
          match parseBodyN 8 (r2.drop 3) with
          | none => none
          | some (pairs, r4) =>
            if r4 = [',', '\n'] then some (String.mk key, pairs) else none
        else none
    else none

/-- Rebuild the 8 positional fields from parsed assignments: a field
missing from the emitted form is reconstructed as empty. -/
def reconstructRecord (pairs : List (String × String)) : RawRecord :=
  fieldKinds.map (fun fk =>
    ((pairs.find? (fun p => p.1 == fk.1)).map Prod.snd).getD "")

/-- Emit one record and re-parse the emitted form. -/
def roundTrip (key : String) (record : RawRecord) :
    Option (String × RawRecord) :=
  (parseStruct (emitStruct key record).data).map
    (fun p => (p.1, reconstructRecord p.2))

/-- The key/value assignments the emitter writes for a record. -/
def pairsOf (fks : List (String × Bool)) (vals : List String) :
    List (String × String) :=
  (fks.zip vals).filterMap (fun p => if p.2 = "" then none else some (p.1.1, p.2))

theorem mk_data (s : String) : String.mk s.data = s := rfl

theorem readIdent_append (nm rest : List Char) (h : ':' ∉ nm) :
    readIdent (nm ++ ':' :: rest) = some (nm, rest) := by
  induction nm with
  | nil => simp [readIdent]
  | cons c cs ih =>
    rw [List.mem_cons, not_or] at h
    have hc : c ≠ ':' := fun he => h.1 he.symm
    rw [List.cons_append]
    unfold readIdent
    rw [if_neg hc, ih h.2]
    rfl

theorem readGoLiteral_append (q : Char) (v rest : List Char)
    (h : q ∉ v) (hnl : '\n' ∉ v) (hbs : '\\' ∉ v) :
    readGoLiteral q (v ++ q :: rest) = some (v, rest) := by
  induction v with
  | nil =>
    rw [List.nil_append]
    unfold readGoLiteral
    rw [if_pos rfl]
  | cons c cs ih =>
    rw [List.mem_cons, not_or] at h hnl hbs
    have hc : c ≠ q := fun he => h.1 he.symm
    have hcnl : c ≠ '\n' := fun he => hnl.1 he.symm
    have hcbs : c ≠ '\\' := fun he => hbs.1 he.symm
    rw [List.cons_append]
    unfold readGoLiteral
    rw [if_neg hc, if_neg hcnl, if_neg hcbs, ih h.2 hnl.2 hbs.2]
    rfl

theorem parseOneField_render (f : String × Bool × String) (rest : List Char)
    (hnm : ':' ∉ f.1.data)
    (hq : f.2.1 = true →
      '"' ∉ f.2.2.data ∧ '\\' ∉ f.2.2.data ∧ '\n' ∉ f.2.2.data)
    (hsq : f.2.1 = false →
      '\x27' ∉ f.2.2.data ∧ '\\' ∉ f.2.2.data ∧ '\n' ∉ f.2.2.data ∧
        f.2.2.data.length = 1) :
    parseOneField (renderField f ++ rest) = some ((f.1, f.2.2), rest) := by
  obtain ⟨nm, b, v⟩ := f
  cases b with
  | false =>
    obtain ⟨hv, hvbs, hvnl, hv1⟩ := hsq rfl
    have hqq : ('\x27' : Char) ≠ '"' := by decide
    simp only [parseOneField, renderField, List.append_assoc, List.cons_append,
      List.nil_append, if_false, Bool.false_eq_true,
      readIdent_append nm.data _ hnm,
      readGoLiteral_append '\x27' v.data _ hv hvnl hvbs,
      if_neg hqq, hv1, eq_self_iff_true, if_true, mk_data]
  | true =>
    obtain ⟨hv, hvbs, hvnl⟩ := hq rfl
    simp only [parseOneField, renderField, List.append_assoc, List.cons_append,
      List.nil_append, if_true,
      readIdent_append nm.data _ hnm,
      readGoLiteral_append '"' v.data _ hv hvnl hvbs,
      eq_self_iff_true, mk_data]

theorem parseBodyN_close (m : Nat) (tail : List Char) :
    parseBodyN m ('\x7d' :: tail) = some ([], tail) := by
  unfold parseBodyN
  rw [if_pos rfl]

theorem parseBodyN_step (m : Nat) (s r1 : List Char) (pair : String × String)
    (hne : s ≠ []) (hhead : s.headD ' ' ≠ '\x7d')
    (hfield : parseOneField s = some (pair, r1)) :
    parseBodyN (m + 1) s =
      match parseBodyN m (if r1.take 2 = [',', ' '] then r1.drop 2 else r1) with
      | none => none
      | some (pairs, r3) => some (pair :: pairs, r3) := by
  rcases s with _ | ⟨c, rest⟩
  · exact absurd rfl hne
  · have hc : c ≠ '\x7d' := by simpa using hhead
    conv_lhs => unfold parseBodyN
    rw [if_neg hc, hfield]

theorem renderField_append_ne_nil (f : String × Bool × String) (X : List Char)
    (h : f.1.data ≠ []) : renderField f ++ X ≠ [] := by
  rcases hd : f.1.data with _ | ⟨c, cs⟩
  · exact absurd hd h
  · simp [renderField, hd]

theorem renderField_append_headD (f : String × Bool × String) (X : List Char)
    (h : f.1.data ≠ []) :
    (renderField f ++ X).headD ' ' = f.1.data.headD ' ' := by
  rcases hd : f.1.data with _ | ⟨c, cs⟩
  · exact absurd hd h
  · simp [renderField, hd]

theorem parseBodyN_render (fps : List (String × Bool × String))
    (tail : List Char) :
    ∀ n, fps.length ≤ n →
    (∀ f ∈ fps, f.1.data ≠ [] ∧ f.1.data.headD ' ' ≠ '\x7d' ∧
      ':' ∉ f.1.data ∧
      (f.2.1 = true →
        '"' ∉ f.2.2.data ∧ '\\' ∉ f.2.2.data ∧ '\n' ∉ f.2.2.data) ∧
      (f.2.1 = false →
        '\x27' ∉ f.2.2.data ∧ '\\' ∉ f.2.2.data ∧ '\n' ∉ f.2.2.data ∧
          f.2.2.data.length = 1)) →
    parseBodyN n (renderBody fps ++ '\x7d' :: tail) =
      some (fps.map (fun f => (f.1, f.2.2)), tail) := by
  induction fps with
  | nil =>
    intro n _ _
    simpa [renderBody] using parseBodyN_close n tail
  | cons f fps' ih =>
    intro n hn hwf
    obtain ⟨m, rfl⟩ : ∃ m, n = m + 1 :=
      ⟨n - 1, by simp at hn; omega⟩
    obtain ⟨hne, hhead, hnm, hq, hsq⟩ := hwf f (List.mem_cons_self f fps')
    cases fps' with
    | nil =>
      have hbody : renderBody [f] ++ '\x7d' :: tail =
          renderField f ++ '\x7d' :: tail := by
        simp [renderBody]
      rw [hbody]
      rw [parseBodyN_step m _ _ _ (renderField_append_ne_nil f _ hne)
        (by rw [renderField_append_headD f _ hne]; exact hhead)
        (parseOneField_render f ('\x7d' :: tail) hnm hq hsq)]
      have htake : ('\x7d' :: tail).take 2 ≠ [',', ' '] := by
        cases tail <;> simp [List.take]
      rw [if_neg htake, parseBodyN_close]
      rfl
    | cons g rest' =>
      have hbody : renderBody (f :: g :: rest') ++ '\x7d' :: tail =
          renderField f ++
            (',' :: ' ' :: (renderBody (g :: rest') ++ '\x7d' :: tail)) := by
        simp [renderBody]
      rw [hbody]
      rw [parseBodyN_step m _ _ _ (renderField_append_ne_nil f _ hne)
        (by rw [renderField_append_headD f _ hne]; exact hhead)
        (parseOneField_render f _ hnm hq hsq)]
      have htake : (',' :: ' ' ::
          (renderBody (g :: rest') ++ '\x7d' :: tail)).take 2 = [',', ' '] := rfl
      rw [if_pos htake]
      have hdrop : (',' :: ' ' ::
          (renderBody (g :: rest') ++ '\x7d' :: tail)).drop 2 =
          renderBody (g :: rest') ++ '\x7d' :: tail := rfl
      rw [hdrop, ih m (by simp at hn ⊢; omega)
        (fun f2 hf2 => hwf f2 (List.mem_cons_of_mem f hf2))]
      rfl

theorem parseStruct_emit (key : String) (record : RawRecord)
    (hkey : '"' ∉ key.data ∧ '\\' ∉ key.data ∧ '\n' ∉ key.data)
    (hwf : ∀ f ∈ presentFields record, f.1.data ≠ [] ∧
      f.1.data.headD ' ' ≠ '\x7d' ∧ ':' ∉ f.1.data ∧
      (f.2.1 = true →
        '"' ∉ f.2.2.data ∧ '\\' ∉ f.2.2.data ∧ '\n' ∉ f.2.2.data) ∧
      (f.2.1 = false →
        '\x27' ∉ f.2.2.data ∧ '\\' ∉ f.2.2.data ∧ '\n' ∉ f.2.2.data ∧
          f.2.2.data.length = 1))
    (hle : (presentFields record).length ≤ 8) :
    parseStruct (emitStruct key record).data =
      some (key, (presentFields record).map (fun f => (f.1, f.2.2))) := by
  have hbody := parseBodyN_render (presentFields record)
    (',' :: '\n' :: []) 8 hle hwf
  simp only [emitStruct, parseStruct,
    readGoLiteral_append '"' key.data _ hkey.1 hkey.2.2 hkey.2.1,
    eq_self_iff_true, if_true,
    List.take_succ_cons, List.take_zero, List.drop_succ_cons, List.drop_zero,
    hbody, mk_data]

theorem pairsOf_cons (fk0 : String × Bool) (fks' : List (String × Bool))
    (v : String) (vals' : List String) :
    pairsOf (fk0 :: fks') (v :: vals') =
      if v = "" then pairsOf fks' vals'
      else (fk0.1, v) :: pairsOf fks' vals' := by
  by_cases hv : v = ""
  · simp [pairsOf, hv]
  · simp [pairsOf, hv]

theorem pairsOf_keys (fks : List (String × Bool)) (vals : List String)
    (a b : String) (h : (a, b) ∈ pairsOf fks vals) :
    a ∈ fks.map Prod.fst := by
  rcases List.mem_filterMap.mp h with ⟨p, hp, hf⟩
  by_cases hpv : p.2 = ""
  · rw [if_pos hpv] at hf; cases hf
  · rw [if_neg hpv] at hf
    simp only [Option.some.injEq, Prod.mk.injEq] at hf
    obtain ⟨rfl, rfl⟩ := hf
    exact List.mem_map.mpr ⟨p.1, (List.of_mem_zip hp).1, rfl⟩

theorem reconstruct_pairs (fks : List (String × Bool)) :
    ∀ vals : List String, vals.length = fks.length →
    (fks.map Prod.fst).Nodup →
    fks.map (fun fk =>
      (((pairsOf fks vals).find? (fun p => p.1 == fk.1)).map Prod.snd).getD "") =
      vals := by
  induction fks with
  | nil =>
    intro vals hlen _
    rw [List.length_nil, List.length_eq_zero] at hlen
    subst hlen
    rfl
  | cons fk0 fks' ih =>
    intro vals hlen hnodup
    rcases vals with _ | ⟨v, vals'⟩
    · cases hlen
    have hlen' : vals'.length = fks'.length := by
      simpa using hlen
    have hnotin : fk0.1 ∉ fks'.map Prod.fst :=
      (List.nodup_cons.mp (by simpa using hnodup)).1
    have hnodup' : (fks'.map Prod.fst).Nodup :=
      (List.nodup_cons.mp (by simpa using hnodup)).2
    rw [pairsOf_cons, List.map_cons]
    by_cases hv : v = ""
    · rw [if_pos hv]
      have hhead : ((pairsOf fks' vals').find?
          (fun p => p.1 == fk0.1)) = none := by
        rw [List.find?_eq_none]
        intro p hp
        simp only [beq_iff_eq]
        intro he
        exact hnotin (he ▸ pairsOf_keys fks' vals' p.1 p.2 (by simpa using hp))
      rw [hhead]
      rw [hv]
      exact congrArg (List.cons "") (ih vals' hlen' hnodup')
    · rw [if_neg hv]
      have hhead : (((fk0.1, v) :: pairsOf fks' vals').find?
          (fun p => p.1 == fk0.1)) = some (fk0.1, v) :=
        List.find?_cons_of_pos _ (by simp)
      rw [hhead]
      have htail : ∀ fk ∈ fks',
          ((((fk0.1, v) :: pairsOf fks' vals').find?
            (fun p => p.1 == fk.1)).map Prod.snd).getD "" =
          (((pairsOf fks' vals').find?
            (fun p => p.1 == fk.1)).map Prod.snd).getD "" := by
        intro fk hfk
        have hne : fk0.1 ≠ fk.1 := by
          intro he
          exact hnotin (he ▸ List.mem_map.mpr ⟨fk, hfk, rfl⟩)
        rw [List.find?_cons_of_neg _ (by simpa using hne)]
      rw [List.map_congr_left htail]
      exact congrArg (List.cons v) (ih vals' hlen' hnodup')

theorem presentFields_pairs (record : RawRecord) :
    (presentFields record).map (fun f => (f.1, f.2.2)) =
      pairsOf fieldKinds record := by
  unfold presentFields pairsOf
  rw [List.map_filterMap]
  refine congrArg (fun f => List.filterMap f (fieldKinds.zip record))
    (funext fun p => ?_)
  by_cases hp : p.2 = ""
  · simp [hp]
  · simp [hp]

theorem data_eq_nil (s : String) (h : s.data = []) : s = "" := by
  cases s with
  | mk d =>
    have hd : d = [] := h
    subst hd
    rfl

theorem presentFields_wf (record : RawRecord)
    (hq : ∀ p ∈ fieldKinds.zip record, p.1.2 = true →
      '"' ∉ p.2.data ∧ '\\' ∉ p.2.data ∧ '\n' ∉ p.2.data)
    (hsq : ∀ p ∈ fieldKinds.zip record, p.1.2 = false →
      '\x27' ∉ p.2.data ∧ '\\' ∉ p.2.data ∧ '\n' ∉ p.2.data ∧
        p.2.data.length ≤ 1) :
    ∀ f ∈ presentFields record, f.1.data ≠ [] ∧
      f.1.data.headD ' ' ≠ '\x7d' ∧ ':' ∉ f.1.data ∧
      (f.2.1 = true →
        '"' ∉ f.2.2.data ∧ '\\' ∉ f.2.2.data ∧ '\n' ∉ f.2.2.data) ∧
      (f.2.1 = false →
        '\x27' ∉ f.2.2.data ∧ '\\' ∉ f.2.2.data ∧ '\n' ∉ f.2.2.data ∧
          f.2.2.data.length = 1) := by
  intro f hf
  rcases List.mem_filterMap.mp hf with ⟨p, hp, hfp⟩
  by_cases hpv : p.2 = ""
  · rw [if_pos hpv] at hfp; cases hfp
  · rw [if_neg hpv] at hfp
    simp only [Option.some.injEq] at hfp
    subst hfp
    have hname : ∀ nk ∈ fieldKinds, nk.1.data ≠ [] ∧
        nk.1.data.headD ' ' ≠ '\x7d' ∧ ':' ∉ nk.1.data := by decide
    obtain ⟨h1, h2, h3⟩ := hname p.1 (List.of_mem_zip hp).1
    refine ⟨h1, h2, h3, hq p hp, fun hk => ?_⟩
    obtain ⟨ha, hb, hc, hle1⟩ := hsq p hp hk
    have hne : p.2.data ≠ [] := fun hd => hpv (data_eq_nil _ hd)
    have hpos : 0 < p.2.data.length := List.length_pos.mpr hne
    exact ⟨ha, hb, hc, Nat.le_antisymm hle1 hpos⟩

theorem presentFields_length_le (record : RawRecord) :
    (presentFields record).length ≤ 8 := by
  unfold presentFields
  refine le_trans (List.length_filterMap_le _ _) ?_
  rw [List.length_zip]
  exact le_trans (min_le_left _ _) (by rfl)

/-- A record whose `Name` field contains a double quote. -/
def quoteRecord : RawRecord := ["abc", "", "", "", "I", "L", "x\"y", ""]

/-- C4 counterexample: the emitter does not escape field values, so a
record whose `Name` contains a double quote does not survive the round
trip: the emitted text is not parseable back into the record. -/
theorem emit_roundTrip_counterexample :
    roundTrip "abc" quoteRecord ≠ some ("abc", quoteRecord) := by decide

/-- C4 (amended): for every 8-field row whose key and string-kind values
contain no double quote, backslash or newline, and whose rune-kind values
hold at most one character, which is not a single quote, backslash or
newline, emitting the record and re-parsing the emitted form with a
Go-literal loader reconstructs the row field for field, empty fields being
omitted in the output and reconstructed as empty.  The emitter performs no
escaping, so outside this class a value either fails to parse back (the
real pipeline aborts at the formatting step) or decodes to a different
value. -/
theorem emit_roundTrip (key : String) (record : RawRecord)
    (hlen : record.length = 8)
    (hkey : '"' ∉ key.data ∧ '\\' ∉ key.data ∧ '\n' ∉ key.data)
    (hq : ∀ p ∈ fieldKinds.zip record, p.1.2 = true →
      '"' ∉ p.2.data ∧ '\\' ∉ p.2.data ∧ '\n' ∉ p.2.data)
    (hsq : ∀ p ∈ fieldKinds.zip record, p.1.2 = false →
      '\x27' ∉ p.2.data ∧ '\\' ∉ p.2.data ∧ '\n' ∉ p.2.data ∧
        p.2.data.length ≤ 1) :
    roundTrip key record = some (key, record) := by
  unfold roundTrip
  rw [parseStruct_emit key record hkey (presentFields_wf record hq hsq)
    (presentFields_length_le record)]
  rw [Option.map_some']
  rw [presentFields_pairs]
  unfold reconstructRecord
  rw [reconstruct_pairs fieldKinds record (by rw [hlen]; rfl) (by decide)]

/-- C4 witness: the round-trip theorem applied to a concrete quote-free
row with an empty comment field. -/
theorem emit_roundTrip_witness :
    roundTrip "deu" ["deu", "ger", "deu", "de", "I", "L", "German", ""] =
      some ("deu", ["deu", "ger", "deu", "de", "I", "L", "German", ""]) :=
  emit_roundTrip "deu" ["deu", "ger", "deu", "de", "I", "L", "German", ""]
    (by decide) (by decide) (by decide) (by decide)

end Iso6393
